import Mathlib

/-!
Verification of the ecstasy entity-component core: entity identity and
liveness (`Entities`), the abstract component storage (`AStorage`), the
associative storage (`MapStorage`), and the query engine.

The storage code (`AStorage::contains`, `AStorage::at`, `MapStorage`) is
embedded from the headers in the repository.  The bodies of
`Entities::create`, `Entities::kill`, `Entities::isAlive`, the `Builder`
methods, `util::BitSet` and the query engine are declared in the headers but
their implementation files are not part of the inspected sources; those are
modelled from the specification, as marked on each definition.
-/

namespace Ecstasy

/-- Modelled from the spec: `util::BitSet` (util/BitSet.hpp is not among the
inspected sources).  A dense bit-indexed membership set: `test i` is false for
any out-of-range `i`, `set` auto-grows the backing storage, and the bulk
intersection / subtraction operations produce a bitset of size
`max` of the operand sizes with out-of-range bits treated as 0. -/
structure BitSet where
  bits : List Bool
deriving Repr, DecidableEq

namespace BitSet

/-- Number of representable bits. -/
def size (b : BitSet) : Nat := b.bits.length

/-- Bit test: false for any out-of-range index, never errors. -/
def test (b : BitSet) (i : Nat) : Bool := b.bits.getD i false

/-- A bitset of size `n` whose bit `j` is `f j`. -/
def ofFun (n : Nat) (f : Nat → Bool) : BitSet := ⟨(List.range n).map f⟩

/-- Modelled from the spec: `set(i, v)` auto-grows the backing storage when
`i` is beyond the current capacity, then writes bit `i`. -/
def set (b : BitSet) (i : Nat) (v : Bool) : BitSet :=
  ofFun (max b.size (i + 1)) (fun j => if j = i then v else b.test j)

/-- Modelled from the spec: bulk set-intersection, size `max` of the operand
sizes, out-of-range bits treated as 0. -/
def inter (a b : BitSet) : BitSet :=
  ofFun (max a.size b.size) (fun i => a.test i && b.test i)

/-- Modelled from the spec: bulk set-subtraction (bits of `a` not in `b`). -/
def diff (a b : BitSet) : BitSet :=
  ofFun (max a.size b.size) (fun i => a.test i && !b.test i)

/-- The positions of the set bits, in ascending order. -/
def setBits (b : BitSet) : List Nat :=
  (List.range b.size).filter (fun i => b.test i)

end BitSet

/-- `Entity`: a slot index paired with a generation counter
(src/unnamed/part_002, `Entity.hpp` handle described by the spec). -/
structure Entity where
  index : Nat
  generation : Nat
deriving Repr, DecidableEq

/-- The `Entities` registry state: one generation counter per ever-allocated
slot and the liveness bitset (src/unnamed/part_002 lines 183-186:
`_generations` and `_alive` are its only fields). -/
structure Entities where
  generations : List Nat
  alive : BitSet
deriving Repr, DecidableEq

namespace Entities

/-- Search helper for `create`: the least `j` with `i ≤ j < i + r` whose
liveness bit is 0, or `i + r` when every such bit is set. -/
def searchFree (alive : BitSet) : Nat → Nat → Nat
  | 0, i => i
  | r + 1, i => if alive.test i then searchFree alive r (i + 1) else i

/-- The lowest-index existing slot whose liveness bit is 0, or
`generations.length` when every existing slot is alive. -/
def firstFree (s : Entities) : Nat :=
  searchFree s.alive s.generations.length 0

/-- Modelled from the spec: `Entities::create(alive)` (declared at
src/unnamed/part_002 lines 122-133, body not among the inspected sources).
Reuses the lowest-index existing slot whose liveness bit is 0, otherwise
appends a new slot with generation 0; sets the slot's liveness bit to
`alive`; returns the handle carrying the slot's current generation. -/
def create (s : Entities) (alive : Bool) : Entity × Entities :=
  let i := firstFree s
  let gens := if i < s.generations.length then s.generations else s.generations ++ [0]
  (⟨i, gens.getD i 0⟩, ⟨gens, s.alive.set i alive⟩)

/-- Modelled from the spec: `Entities::kill(entity)` (declared at
src/unnamed/part_002 lines 157-169, body not among the inspected sources).
Fails closed (returns false, no effect) when the handle's generation does not
match the slot's current generation or the slot is already dead; otherwise
clears the liveness bit, increments the slot's generation and returns true. -/
def kill (s : Entities) (e : Entity) : Bool × Entities :=
  match s.generations[e.index]? with
  | none => (false, s)
  | some g =>
    if g == e.generation && s.alive.test e.index then
      (true, ⟨s.generations.set e.index (g + 1), s.alive.set e.index false⟩)
    else
      (false, s)

/-- Modelled from the spec: `Entities::isAlive(entity)` (declared at
src/unnamed/part_002 lines 171-181): true iff the slot's liveness bit is 1
and the handle's generation matches the slot's current generation. -/
def isAlive (s : Entities) (e : Entity) : Bool :=
  (s.generations[e.index]? == some e.generation) && s.alive.test e.index

/-- Modelled from the spec: `Entities::get(id)` rebuilds a handle from a slot
index using the slot's current generation. -/
def get (s : Entities) (id : Nat) : Entity :=
  ⟨id, s.generations.getD id 0⟩

/-- One registry operation, for reasoning over arbitrary operation
sequences. -/
inductive Op where
  | createOp (alive : Bool)
  | killOp (e : Entity)
deriving Repr, DecidableEq

/-- Apply one operation to the registry state, dropping the returned value. -/
def applyOp (s : Entities) : Op → Entities
  | .createOp a => (create s a).2
  | .killOp e => (kill s e).2

/-- Run a sequence of registry operations. -/
def runOps (s : Entities) (ops : List Op) : Entities :=
  ops.foldl applyOp s

end Entities

/-- The abstract component storage `AStorage<C>` (src/unnamed/part_001 lines
213-345): an occupancy mask plus the backend's unchecked subscript access,
modelled as `dataFn` (a `none` result models a backend subscript that
fails, as `MapStorage::operator[]` does on an absent key). -/
structure AStorage (C : Type) where
  mask : BitSet
  dataFn : Nat → Option C

namespace AStorage

/-- `AStorage::contains` (src/unnamed/part_001 lines 256-260):
`(index < getMask().size()) && getMask()[index]`. -/
def contains {C : Type} (st : AStorage C) (i : Nat) : Bool :=
  decide (i < st.mask.size) && st.mask.test i

/-- `AStorage::at` (src/unnamed/part_001 lines 274-298): throws
`std::out_of_range` when `contains` is false, otherwise delegates to the
backend subscript.  Embedded with `Except`: `.error` models a throw. -/
def «at» {C : Type} (st : AStorage C) (i : Nat) : Except String C :=
  if st.contains i then
    match st.dataFn i with
    | some c => .ok c
    | none => .error "backend subscript failed"
  else
    .error "Entity doesn't have the component"

/-- Modelled from the spec: `erase(index) -> bool` of the storage contract
(`AStorage::erase(Entity::Index)` is pure virtual at src/unnamed/part_001
line 237; the concrete bool-returning implementations are not among the
inspected sources).  Removes the component if present and returns true,
otherwise returns false and leaves the storage unchanged; never throws. -/
def erase {C : Type} (st : AStorage C) (i : Nat) : Bool × AStorage C :=
  if st.contains i then
    (true, ⟨st.mask.set i false, fun j => if j = i then none else st.dataFn j⟩)
  else
    (false, st)

end AStorage

/-- `MapStorage<C>` (src/src/ecstasy/serialization/Serializer.hpp lines
307-414): an associative container from entity index to component, embedded
as an association list with unique keys, mirroring `std::unordered_map`. -/
structure MapStorage (C : Type) where
  components : List (Nat × C)
deriving Repr, DecidableEq

namespace MapStorage

/-- The mapped value stored for `i`, when present (`_components.find`). -/
def find (st : MapStorage C) (i : Nat) : Option C :=
  (st.components.find? (fun p => p.1 == i)).map Prod.snd

/-- `MapStorage::contains` (Serializer.hpp lines 407-410):
`_components.find(index) != _components.end()`. -/
def contains (st : MapStorage C) (i : Nat) : Bool :=
  (st.find i).isSome

/-- `MapStorage::emplace` (Serializer.hpp lines 343-347):
`_components.emplace(...)` inserts only when the key is absent and always
returns the element now stored under the key, so an existing component is
kept and the newly constructed value discarded. -/
def emplace (st : MapStorage C) (i : Nat) (c : C) : MapStorage C × C :=
  match st.find i with
  | some v => (st, v)
  | none => (⟨st.components ++ [(i, c)]⟩, c)

/-- `MapStorage::erase` (Serializer.hpp lines 349-363):
`_components.erase(index)`, returning nothing. -/
def erase (st : MapStorage C) (i : Nat) : MapStorage C :=
  ⟨st.components.eraseP (fun p => p.1 == i)⟩

end MapStorage

/-- A builder error models a thrown `std::logic_error`
(src/unnamed/part_002 lines 60-62 and 79). -/
inductive BuilderError where
  | alreadyBuilt
  | componentBound
deriving Repr, DecidableEq

/-- `Entities::Builder` (src/unnamed/part_002 lines 37-113): the bound
not-yet-alive entity and the consumed flag `_built`. -/
structure Builder where
  entity : Entity
  built : Bool
deriving Repr, DecidableEq

namespace Builder

/-- Modelled from the spec: `Builder::with(storage, args...)` (declared at
src/unnamed/part_002 lines 66-72, body of `Entity::add` not among the
inspected sources).  Throws `std::logic_error` when the builder was already
consumed or the entity already has the component; otherwise attaches the
component to the bound entity in the given storage. -/
def withComp {C : Type} (b : Builder) (st : MapStorage C) (c : C) :
    Except BuilderError (Builder × MapStorage C) :=
  if b.built then .error .alreadyBuilt
  else if st.contains b.entity.index then .error .componentBound
  else .ok (b, (st.emplace b.entity.index c).1)

/-- Modelled from the spec: `Builder::build()` (declared at
src/unnamed/part_002 lines 74-84, body not among the inspected sources).
Throws `std::logic_error` when the builder was already consumed; otherwise
marks the bound entity alive in the registry, consumes the builder and
returns the handle. -/
def build (b : Builder) (s : Entities) :
    Except BuilderError (Builder × Entities × Entity) :=
  if b.built then .error .alreadyBuilt
  else .ok ({ b with built := true },
            ⟨s.generations, s.alive.set b.entity.index true⟩, b.entity)

end Builder

/-- Modelled from the spec: `Entities::builder()` allocates a not-yet-alive
entity (`create(false)`) and wraps it in a fresh builder. -/
def Entities.builder (s : Entities) : Builder × Entities :=
  let r := Entities.create s false
  (⟨r.1, false⟩, r.2)

/-- A registry together with one component storage.  `Entities` owns only
`_generations` and `_alive` (src/unnamed/part_002 lines 183-186), so a kill
lifted to this world can only pass the storage through untouched. -/
structure RegistryWorld (C : Type) where
  entities : Entities
  storage : MapStorage C
deriving Repr, DecidableEq

/-- `Entities::kill` lifted to a world holding a component storage: the
registry has no knowledge of storages, so the storage is unchanged. -/
def RegistryWorld.kill {C : Type} (w : RegistryWorld C) (e : Entity) :
    Bool × RegistryWorld C :=
  let r := Entities.kill w.entities e
  (r.1, ⟨r.2, w.storage⟩)

namespace Query

/-- Modelled from the spec: the query engine (its sources are not among the
inspected files) computes the bit-intersection of all required occupancy
bitsets, bit-subtracts all excluded occupancy bitsets, and intersects with
the registry's liveness bitset. -/
def combined (required excluded : List BitSet) (liveness : BitSet) : BitSet :=
  excluded.foldl BitSet.diff (required.foldl BitSet.inter liveness)

/-- Modelled from the spec: one query invocation yields the set bit positions
of the combined bitset, in ascending slot order; every invocation recomputes
`combined` from the storages' current occupancy masks. -/
def indices (required excluded : List BitSet) (liveness : BitSet) : List Nat :=
  (combined required excluded liveness).setBits

end Query

/-! ### Bitset lemmas -/

namespace BitSet

theorem size_ofFun (n : Nat) (f : Nat → Bool) : (ofFun n f).size = n := by
  simp [ofFun, size]

theorem test_ofFun (n : Nat) (f : Nat → Bool) (j : Nat) :
    (ofFun n f).test j = if j < n then f j else false := by
  unfold ofFun test
  rcases Nat.lt_or_ge j n with h | h
  · rw [List.getD_eq_getElem?_getD, List.getElem?_map, List.getElem?_range h]
    simp [h]
  · rw [List.getD_eq_getElem?_getD, List.getElem?_eq_none (by simpa using h)]
    simp [Nat.not_lt.mpr h]

theorem test_out (b : BitSet) (j : Nat) (h : b.size ≤ j) : b.test j = false := by
  unfold test
  rw [List.getD_eq_getElem?_getD, List.getElem?_eq_none h]
  rfl

theorem size_set (b : BitSet) (i : Nat) (v : Bool) :
    (b.set i v).size = max b.size (i + 1) := by
  simp [set, size_ofFun]

theorem test_set (b : BitSet) (i j : Nat) (v : Bool) :
    (b.set i v).test j = if j = i then v else b.test j := by
  unfold set
  rw [test_ofFun]
  by_cases hji : j = i
  · subst hji
    simp [Nat.lt_of_lt_of_le (Nat.lt_succ_self j) (Nat.le_max_right b.size (j + 1))]
  · simp only [hji, if_false]
    by_cases hlt : j < max b.size (i + 1)
    · simp [hlt]
    · have hsz : b.size ≤ j := le_trans (Nat.le_max_left _ _) (Nat.not_lt.mp hlt)
      simp [hlt, test_out b j hsz]

theorem test_inter (a b : BitSet) (i : Nat) :
    (a.inter b).test i = (a.test i && b.test i) := by
  unfold inter
  rw [test_ofFun]
  by_cases hlt : i < max a.size b.size
  · simp [hlt]
  · have ha : a.size ≤ i := le_trans (Nat.le_max_left _ _) (Nat.not_lt.mp hlt)
    simp [hlt, test_out a i ha]

theorem test_diff (a b : BitSet) (i : Nat) :
    (a.diff b).test i = (a.test i && !b.test i) := by
  unfold diff
  rw [test_ofFun]
  by_cases hlt : i < max a.size b.size
  · simp [hlt]
  · have ha : a.size ≤ i := le_trans (Nat.le_max_left _ _) (Nat.not_lt.mp hlt)
    simp [hlt, test_out a i ha]

theorem mem_setBits (b : BitSet) (i : Nat) :
    i ∈ b.setBits ↔ b.test i = true := by
  unfold setBits
  rw [List.mem_filter, List.mem_range]
  constructor
  · exact fun h => h.2
  · intro h
    refine ⟨?_, h⟩
    by_contra hlt
    rw [test_out b i (Nat.not_lt.mp hlt)] at h
    exact Bool.false_ne_true h

theorem sorted_setBits (b : BitSet) : b.setBits.Sorted (· < ·) :=
  (List.pairwise_lt_range _).filter _

end BitSet

/-! ### List helper lemmas -/

theorem getD_zero_append_zero (l : List Nat) (i : Nat) :
    (l ++ [0]).getD i 0 = l.getD i 0 := by
  rcases Nat.lt_or_ge i l.length with h | h
  · exact List.getD_append l [0] 0 i h
  · have h2 : l.getD i 0 = 0 := by
      rw [List.getD_eq_getElem?_getD, List.getElem?_eq_none h]
      rfl
    have h3 : (l ++ [0]).getD i 0 = 0 := by
      rw [List.getD_eq_getElem?_getD, List.getElem?_append_right h]
      rcases Nat.eq_or_lt_of_le h with heq | hlt
      · rw [← heq, Nat.sub_self]
        rfl
      · have h4 : (1 : Nat) ≤ i - l.length := by omega
        rw [List.getElem?_eq_none (by simpa using h4)]
        rfl
    rw [h2, h3]

theorem getD_set_self (l : List Nat) (i : Nat) (v : Nat) (h : i < l.length) :
    (l.set i v).getD i 0 = v := by
  rw [List.getD_eq_getElem?_getD, List.getElem?_set]
  simp [h]

theorem getD_set_other (l : List Nat) (i j : Nat) (v : Nat) (hne : i ≠ j) :
    (l.set i v).getD j 0 = l.getD j 0 := by
  rw [List.getD_eq_getElem?_getD, List.getElem?_set, if_neg hne,
    ← List.getD_eq_getElem?_getD]

/-! ### Entities registry lemmas -/

namespace Entities

theorem searchFree_le (alive : BitSet) (r i : Nat) :
    searchFree alive r i ≤ i + r := by
  induction r generalizing i with
  | zero => simp [searchFree]
  | succ r ih =>
    unfold searchFree
    cases ht : alive.test i with
    | false =>
      rw [if_neg Bool.false_ne_true]
      omega
    | true =>
      rw [if_pos rfl]
      have := ih (i + 1)
      omega

theorem searchFree_ge (alive : BitSet) (r i : Nat) :
    i ≤ searchFree alive r i := by
  induction r generalizing i with
  | zero => simp [searchFree]
  | succ r ih =>
    unfold searchFree
    cases ht : alive.test i with
    | false => rw [if_neg Bool.false_ne_true]
    | true =>
      rw [if_pos rfl]
      have := ih (i + 1)
      omega

theorem searchFree_free (alive : BitSet) (r i : Nat)
    (h : searchFree alive r i < i + r) :
    alive.test (searchFree alive r i) = false := by
  induction r generalizing i with
  | zero =>
    unfold searchFree at h
    exact absurd h (by omega)
  | succ r ih =>
    unfold searchFree at h ⊢
    cases ht : alive.test i with
    | false =>
      rw [if_neg Bool.false_ne_true]
      exact ht
    | true =>
      rw [ht, if_pos rfl] at h
      rw [if_pos rfl]
      exact ih (i + 1) (by omega)

theorem searchFree_min (alive : BitSet) (r i j : Nat)
    (hij : i ≤ j) (hj : j < searchFree alive r i) :
    alive.test j = true := by
  induction r generalizing i with
  | zero =>
    unfold searchFree at hj
    exact absurd hj (by omega)
  | succ r ih =>
    unfold searchFree at hj
    cases ht : alive.test i with
    | false =>
      rw [ht, if_neg Bool.false_ne_true] at hj
      exact absurd hj (by omega)
    | true =>
      rw [ht, if_pos rfl] at hj
      rcases Nat.eq_or_lt_of_le hij with rfl | hlt
      · exact ht
      · exact ih (i + 1) hlt hj

theorem searchFree_exists (alive : BitSet) (r i j : Nat)
    (hij : i ≤ j) (hjr : j < i + r) (hfree : alive.test j = false) :
    searchFree alive r i < i + r := by
  rcases Nat.lt_or_ge (searchFree alive r i) (i + r) with h | h
  · exact h
  · exfalso
    have : alive.test j = true :=
      searchFree_min alive r i j hij (by omega)
    simp [hfree] at this

theorem firstFree_le (s : Entities) : firstFree s ≤ s.generations.length := by
  simpa using searchFree_le s.alive s.generations.length 0

theorem create_index (s : Entities) (b : Bool) :
    (create s b).1.index = firstFree s := rfl

theorem create_gens (s : Entities) (b : Bool) :
    (create s b).2.generations =
      if firstFree s < s.generations.length then s.generations
      else s.generations ++ [0] := rfl

theorem create_alive_bits (s : Entities) (b : Bool) :
    (create s b).2.alive = s.alive.set (firstFree s) b := rfl

theorem create_genAt (s : Entities) (b : Bool) (i : Nat) :
    (create s b).2.generations.getD i 0 = s.generations.getD i 0 := by
  rw [create_gens]
  by_cases h : firstFree s < s.generations.length
  · rw [if_pos h]
  · rw [if_neg h, getD_zero_append_zero]

theorem create_generation (s : Entities) (b : Bool) :
    (create s b).1.generation = s.generations.getD (firstFree s) 0 := by
  show (create s b).2.generations.getD (firstFree s) 0 = _
  exact create_genAt s b (firstFree s)

theorem create_index_lt (s : Entities) (b : Bool) :
    (create s b).1.index < (create s b).2.generations.length := by
  rw [create_index, create_gens]
  by_cases h : firstFree s < s.generations.length
  · rw [if_pos h]
    exact h
  · rw [if_neg h]
    have := firstFree_le s
    simp
    omega

theorem kill_success_iff (s : Entities) (e : Entity) :
    (kill s e).1 = true ↔
      (s.generations[e.index]? = some e.generation ∧
        s.alive.test e.index = true) := by
  unfold kill
  cases hg : s.generations[e.index]? with
  | none => simp
  | some g =>
    by_cases h1 : g = e.generation
    · subst h1
      by_cases h2 : s.alive.test e.index = true
      · simp [h2]
      · simp [h2]
    · simp [h1]

theorem kill_fail (s : Entities) (e : Entity)
    (h : ¬(s.generations[e.index]? = some e.generation ∧
        s.alive.test e.index = true)) :
    kill s e = (false, s) := by
  unfold kill
  cases hg : s.generations[e.index]? with
  | none => rfl
  | some g =>
    by_cases h1 : g = e.generation
    · subst h1
      cases ht : s.alive.test e.index with
      | true => exact absurd ⟨hg, ht⟩ h
      | false => simp [ht]
    · simp [h1]

theorem kill_success_state (s : Entities) (e : Entity)
    (hg : s.generations[e.index]? = some e.generation)
    (ha : s.alive.test e.index = true) :
    kill s e = (true,
      ⟨s.generations.set e.index (e.generation + 1),
        s.alive.set e.index false⟩) := by
  unfold kill
  rw [hg]
  simp [ha]

end Entities

theorem getElem?_some_lt {l : List Nat} {n a : Nat} (h : l[n]? = some a) :
    n < l.length := by
  by_contra hc
  rw [List.getElem?_eq_none (Nat.not_lt.mp hc)] at h
  exact Option.noConfusion h

theorem getD_of_getElem? {l : List Nat} {n a : Nat} (h : l[n]? = some a) :
    l.getD n 0 = a := by
  rw [List.getD_eq_getElem?_getD, h]
  rfl

namespace Entities

theorem genAt_applyOp (s : Entities) (o : Op) (i : Nat) :
    s.generations.getD i 0 ≤ (applyOp s o).generations.getD i 0 := by
  cases o with
  | createOp a =>
    show s.generations.getD i 0 ≤ (create s a).2.generations.getD i 0
    rw [create_genAt]
  | killOp e =>
    show s.generations.getD i 0 ≤ (kill s e).2.generations.getD i 0
    by_cases h : s.generations[e.index]? = some e.generation ∧
        s.alive.test e.index = true
    · rw [kill_success_state s e h.1 h.2]
      by_cases hi : e.index = i
      · subst hi
        rw [getD_set_self _ _ _ (getElem?_some_lt h.1)]
        have hg := getD_of_getElem? h.1
        omega
      · rw [getD_set_other _ _ _ _ hi]
    · rw [kill_fail s e h]

theorem length_applyOp (s : Entities) (o : Op) :
    s.generations.length ≤ (applyOp s o).generations.length := by
  cases o with
  | createOp a =>
    show s.generations.length ≤ (create s a).2.generations.length
    rw [create_gens]
    by_cases h : firstFree s < s.generations.length
    · rw [if_pos h]
    · rw [if_neg h]
      simp
  | killOp e =>
    show s.generations.length ≤ (kill s e).2.generations.length
    by_cases h : s.generations[e.index]? = some e.generation ∧
        s.alive.test e.index = true
    · rw [kill_success_state s e h.1 h.2]
      simp
    · rw [kill_fail s e h]

theorem genAt_runOps (s : Entities) (ops : List Op) (i : Nat) :
    s.generations.getD i 0 ≤ (runOps s ops).generations.getD i 0 := by
  induction ops generalizing s with
  | nil => exact le_refl _
  | cons o ops ih =>
    exact le_trans (genAt_applyOp s o i) (ih (applyOp s o))

theorem length_runOps (s : Entities) (ops : List Op) :
    s.generations.length ≤ (runOps s ops).generations.length := by
  induction ops generalizing s with
  | nil => exact le_refl _
  | cons o ops ih =>
    exact le_trans (length_applyOp s o) (ih (applyOp s o))

theorem isAlive_false_of_gen_lt (s : Entities) (e : Entity)
    (h : e.generation < s.generations.getD e.index 0) :
    isAlive s e = false := by
  unfold isAlive
  rcases Nat.lt_or_ge e.index s.generations.length with hlt | hge
  · rw [List.getElem?_eq_getElem hlt]
    have hd : s.generations.getD e.index 0 = s.generations[e.index] := by
      rw [List.getD_eq_getElem?_getD, List.getElem?_eq_getElem hlt]
      rfl
    have hne : ¬(s.generations[e.index] = e.generation) := by omega
    simp [hne]
  · exfalso
    have hd : s.generations.getD e.index 0 = 0 := by
      rw [List.getD_eq_getElem?_getD, List.getElem?_eq_none hge]
      rfl
    omega

theorem create_isAliveSelf (s : Entities) (b : Bool) :
    isAlive (create s b).2 (create s b).1 = b := by
  unfold isAlive
  have hlt := create_index_lt s b
  have hgen : (create s b).2.generations[(create s b).1.index] =
      (create s b).1.generation := by
    have h1 : (create s b).1.generation =
        (create s b).2.generations.getD (create s b).1.index 0 := rfl
    rw [h1, List.getD_eq_getElem?_getD, List.getElem?_eq_getElem hlt]
    rfl
  have htest : (create s b).2.alive.test (create s b).1.index = b := by
    rw [create_alive_bits, create_index, BitSet.test_set]
    simp
  rw [List.getElem?_eq_getElem hlt, hgen, htest]
  simp

end Entities

/-! ### Claim theorems: the entity registry -/

/-- C1: for every entity handle `e`, if `e`'s generation does not equal the
registry's current generation for `e`'s slot, or the slot's liveness bit is
already 0, then `Entities::kill(e)` returns false and leaves the registry
state (all generation counters and the liveness bitset) unchanged; otherwise
it clears the slot's liveness bit, increments that slot's generation by one,
and returns true. -/
theorem kill_fails_closed_or_retires_slot (s : Entities) (e : Entity) :
    ((¬(s.generations[e.index]? = some e.generation) ∨
        s.alive.test e.index = false) →
      Entities.kill s e = (false, s)) ∧
    (s.generations[e.index]? = some e.generation →
      s.alive.test e.index = true →
      ((Entities.kill s e).1 = true ∧
        (Entities.kill s e).2.generations =
          s.generations.set e.index (e.generation + 1) ∧
        (Entities.kill s e).2.alive.test e.index = false ∧
        (∀ j, j ≠ e.index →
          (Entities.kill s e).2.alive.test j = s.alive.test j))) := by
  constructor
  · intro h
    apply Entities.kill_fail
    rintro ⟨h1, h2⟩
    rcases h with h | h
    · exact h h1
    · rw [h2] at h
      exact Bool.noConfusion h
  · intro hg ha
    rw [Entities.kill_success_state s e hg ha]
    refine ⟨rfl, rfl, ?_, ?_⟩
    · rw [BitSet.test_set]
      simp
    · intro j hj
      rw [BitSet.test_set, if_neg hj]

/-- C2: `Entities::create(startAlive)` reuses the lowest-index existing slot
whose liveness bit is 0 if one exists, and otherwise appends a brand-new
slot with generation 0; it sets that slot's liveness bit to `startAlive`
and returns a handle whose index is that slot and whose generation is the
slot's current generation counter, unchanged by the create itself. -/
theorem create_reuses_lowest_dead_slot (s : Entities) (startAlive : Bool) :
    ((∃ j, j < s.generations.length ∧ s.alive.test j = false) →
      ((Entities.create s startAlive).1.index < s.generations.length ∧
        s.alive.test (Entities.create s startAlive).1.index = false ∧
        (∀ j, j < (Entities.create s startAlive).1.index →
          s.alive.test j = true) ∧
        (Entities.create s startAlive).2.generations = s.generations)) ∧
    ((∀ j, j < s.generations.length → s.alive.test j = true) →
      ((Entities.create s startAlive).1.index = s.generations.length ∧
        (Entities.create s startAlive).2.generations =
          s.generations ++ [0])) ∧
    ((Entities.create s startAlive).1.generation =
      s.generations.getD (Entities.create s startAlive).1.index 0) ∧
    ((Entities.create s startAlive).2.alive.test
        (Entities.create s startAlive).1.index = startAlive) ∧
    (∀ j, j ≠ (Entities.create s startAlive).1.index →
      (Entities.create s startAlive).2.alive.test j = s.alive.test j) := by
  have hidx : (Entities.create s startAlive).1.index = Entities.firstFree s :=
    Entities.create_index s startAlive
  refine ⟨?_, ?_, ?_, ?_, ?_⟩
  · rintro ⟨j, hj, hfree⟩
    have hlt : Entities.firstFree s < s.generations.length := by
      have h0 := Entities.searchFree_exists s.alive s.generations.length 0 j
        (Nat.zero_le j) (by omega) hfree
      simpa [Entities.firstFree] using h0
    refine ⟨by rw [hidx]; exact hlt, ?_, ?_, ?_⟩
    · rw [hidx]
      exact Entities.searchFree_free s.alive s.generations.length 0
        (by simpa using hlt)
    · intro j2 hj2
      rw [hidx] at hj2
      exact Entities.searchFree_min s.alive s.generations.length 0 j2
        (Nat.zero_le _) hj2
    · rw [Entities.create_gens, if_pos hlt]
  · intro hall
    have heq : Entities.firstFree s = s.generations.length := by
      rcases Nat.lt_or_ge (Entities.firstFree s) s.generations.length
        with hlt | hge
      · exfalso
        have hfree : s.alive.test (Entities.firstFree s) = false :=
          Entities.searchFree_free s.alive s.generations.length 0
            (by simpa using hlt)
        have hmust := hall (Entities.firstFree s) hlt
        rw [hmust] at hfree
        exact Bool.noConfusion hfree
      · exact Nat.le_antisymm (Entities.firstFree_le s) hge
    refine ⟨by rw [hidx, heq], ?_⟩
    rw [Entities.create_gens, if_neg (by rw [heq]; exact lt_irrefl _)]
  · rw [hidx]
    exact Entities.create_generation s startAlive
  · rw [Entities.create_alive_bits, hidx, BitSet.test_set]
    simp
  · intro j hj
    rw [hidx] at hj
    rw [Entities.create_alive_bits, BitSet.test_set, if_neg hj]

/-- C3: for every sequence of create and kill operations on one registry, a
handle returned by `create(true)` satisfies `isAlive` immediately after; and
for every handle `h` whose slot is successfully killed, every later handle
created by reusing the same slot has a strictly greater generation than `h`,
so `isAlive(h)` is false even though the two handles share the slot index. -/
theorem generation_safety_after_reuse (s : Entities) (h : Entity)
    (ops : List Entities.Op) (b : Bool)
    (hkill : (Entities.kill s h).1 = true) :
    (∀ s₀ : Entities,
      Entities.isAlive (Entities.create s₀ true).2
        (Entities.create s₀ true).1 = true) ∧
    ((Entities.create (Entities.runOps (Entities.kill s h).2 ops) b).1.index
        = h.index →
      h.generation <
        (Entities.create
          (Entities.runOps (Entities.kill s h).2 ops) b).1.generation) ∧
    Entities.isAlive
      (Entities.create (Entities.runOps (Entities.kill s h).2 ops) b).2 h
      = false := by
  obtain ⟨hg, ha⟩ := (Entities.kill_success_iff s h).mp hkill
  have hstate := Entities.kill_success_state s h hg ha
  have hs1gens : (Entities.kill s h).2.generations =
      s.generations.set h.index (h.generation + 1) := by
    rw [hstate]
  have hlt : h.index < s.generations.length := getElem?_some_lt hg
  have hgen1 : (Entities.kill s h).2.generations.getD h.index 0 =
      h.generation + 1 := by
    rw [hs1gens]
    exact getD_set_self _ _ _ hlt
  have hgen2 : h.generation + 1 ≤
      (Entities.runOps (Entities.kill s h).2 ops).generations.getD h.index 0 := by
    rw [← hgen1]
    exact Entities.genAt_runOps (Entities.kill s h).2 ops h.index
  refine ⟨fun s₀ => Entities.create_isAliveSelf s₀ true, ?_, ?_⟩
  · intro hidx
    have hff : Entities.firstFree (Entities.runOps (Entities.kill s h).2 ops)
        = h.index := by
      rw [← Entities.create_index
        (Entities.runOps (Entities.kill s h).2 ops) b]
      exact hidx
    rw [Entities.create_generation, hff]
    omega
  · apply Entities.isAlive_false_of_gen_lt
    rw [Entities.create_genAt]
    omega

/-- C3 witness: a concrete successful kill, followed by no further
operations, then a reusing create. -/
theorem generation_safety_after_reuse_witness :
    Entities.isAlive
      (Entities.create
        (Entities.runOps
          (Entities.kill ⟨[0], ⟨[true]⟩⟩ ⟨0, 0⟩).2 []) true).2
      ⟨0, 0⟩ = false :=
  (generation_safety_after_reuse ⟨[0], ⟨[true]⟩⟩ ⟨0, 0⟩ [] true (by decide)).2.2

/-! ### Query engine lemmas -/

namespace Query

theorem test_foldl_inter (ms : List BitSet) (acc : BitSet) (i : Nat) :
    (ms.foldl BitSet.inter acc).test i =
      (acc.test i && ms.all (fun m => m.test i)) := by
  induction ms generalizing acc with
  | nil => simp
  | cons m ms ih =>
    rw [List.foldl_cons, ih (acc.inter m), BitSet.test_inter]
    simp [Bool.and_assoc]

theorem test_foldl_diff (ms : List BitSet) (acc : BitSet) (i : Nat) :
    (ms.foldl BitSet.diff acc).test i =
      (acc.test i && ms.all (fun m => !m.test i)) := by
  induction ms generalizing acc with
  | nil => simp
  | cons m ms ih =>
    rw [List.foldl_cons, ih (acc.diff m), BitSet.test_diff]
    simp [Bool.and_assoc]

end Query

/-- C4: one query invocation yields exactly the slot indices `i` for which
every required storage's occupancy bit is set, every excluded storage's
occupancy bit is clear, and the liveness bit is set, in strictly ascending
index order.  The match set is a function of the current masks, so a fresh
invocation over updated masks reflects any attachment made in between. -/
theorem query_matches_ascending (required excluded : List BitSet)
    (liveness : BitSet) :
    (∀ i : Nat, i ∈ Query.indices required excluded liveness ↔
      ((∀ m ∈ required, m.test i = true) ∧
        (∀ m ∈ excluded, m.test i = false) ∧
        liveness.test i = true)) ∧
    (Query.indices required excluded liveness).Sorted (· < ·) := by
  constructor
  · intro i
    rw [Query.indices, BitSet.mem_setBits, Query.combined,
      Query.test_foldl_diff, Query.test_foldl_inter]
    simp only [Bool.and_eq_true, List.all_eq_true, Bool.not_eq_true']
    tauto
  · exact BitSet.sorted_setBits _

/-! ### Claim theorems: storages -/

/-- C5: the checked accessor `AStorage::at(i)` raises `std::out_of_range`
iff `contains(i)` is false, never silently returning a default; when
`contains(i)` is true it returns the stored component (the embedded `at` is
a pure observer, so the storage is unchanged).  The backend-soundness
hypothesis states that the backend subscript succeeds on every contained
index, which holds for each shipped backend. -/
theorem at_checked_access {C : Type} (st : AStorage C) (i : Nat)
    (hsound : ∀ j, st.contains j = true → (st.dataFn j).isSome = true) :
    (st.contains i = false ↔
      AStorage.«at» st i = .error "Entity doesn't have the component") ∧
    (∀ c, st.contains i = true → st.dataFn i = some c →
      AStorage.«at» st i = .ok c) := by
  constructor
  · constructor
    · intro h
      unfold AStorage.«at»
      rw [if_neg (by simp [h])]
    · intro h
      by_contra hc
      rw [Bool.not_eq_false] at hc
      have hs := hsound i hc
      unfold AStorage.«at» at h
      rw [if_pos hc] at h
      cases hd : st.dataFn i with
      | none =>
        rw [hd] at hs
        exact Bool.noConfusion hs
      | some c =>
        rw [hd] at h
        exact Except.noConfusion h
  · intro c hcont hdata
    unfold AStorage.«at»
    rw [if_pos hcont, hdata]

/-- C5 witness: a storage holding a component at slot 0. -/
theorem at_checked_access_witness :
    AStorage.«at» (⟨⟨[true]⟩, fun _ => some 42⟩ : AStorage Nat) 0 =
      .ok 42 :=
  (at_checked_access (⟨⟨[true]⟩, fun _ => some 42⟩ : AStorage Nat) 0
    (fun _ _ => rfl)).2 42 (by decide) rfl

/-- C6: `AStorage::contains(i)` is total and never throws: it returns false
for every `i` at or beyond the occupancy mask's size, and otherwise returns
exactly the value of bit `i` of the occupancy mask. -/
theorem contains_is_guarded_mask_bit {C : Type} (st : AStorage C) (i : Nat) :
    (st.mask.size ≤ i → st.contains i = false) ∧
    (i < st.mask.size → st.contains i = st.mask.test i) := by
  constructor
  · intro h
    unfold AStorage.contains
    rw [decide_eq_false (Nat.not_lt.mpr h)]
    rfl
  · intro h
    unfold AStorage.contains
    rw [decide_eq_true h, Bool.true_and]

/-- C7: for a storage satisfying the abstract contract, `erase(i)` returns
true exactly when a component was present at `i` (and it is removed, leaving
every other slot untouched), false when no component was present (and the
storage is unchanged); the embedded erase is total, i.e. never throws. -/
theorem erase_reports_presence {C : Type} (st : AStorage C) (i : Nat) :
    ((st.erase i).1 = st.contains i) ∧
    (st.contains i = false → (st.erase i).2 = st) ∧
    (st.contains i = true →
      ((st.erase i).2.contains i = false ∧
        (∀ j, j ≠ i → (st.erase i).2.contains j = st.contains j) ∧
        (st.erase i).2.dataFn i = none)) := by
  by_cases h : st.contains i = true
  · unfold AStorage.erase
    rw [if_pos h]
    refine ⟨h.symm, ?_, ?_⟩
    · intro h2
      rw [h2] at h
      exact Bool.noConfusion h
    · intro _
      refine ⟨?_, ?_, ?_⟩
      · show AStorage.contains ⟨st.mask.set i false, _⟩ i = false
        unfold AStorage.contains
        show (decide (i < (st.mask.set i false).size) &&
          (st.mask.set i false).test i) = false
        rw [BitSet.test_set, if_pos rfl, Bool.and_false]
      · intro j hj
        show AStorage.contains ⟨st.mask.set i false, _⟩ j = st.contains j
        unfold AStorage.contains
        show (decide (j < (st.mask.set i false).size) &&
            (st.mask.set i false).test j) =
          (decide (j < st.mask.size) && st.mask.test j)
        rw [BitSet.test_set, if_neg hj, BitSet.size_set]
        rcases Nat.lt_or_ge j st.mask.size with hlt | hge
        · rw [decide_eq_true hlt,
            decide_eq_true (Nat.lt_of_lt_of_le hlt (Nat.le_max_left _ _))]
        · rw [BitSet.test_out st.mask j hge, Bool.and_false, Bool.and_false]
      · show (fun j => if j = i then none else st.dataFn j) i = none
        simp
  · unfold AStorage.erase
    rw [if_neg h]
    rw [Bool.not_eq_true] at h
    exact ⟨h.symm, fun _ => rfl, fun h2 => absurd h2 (by rw [h]; simp)⟩

/-- C8: `Entities::kill` operates only on the registry's own state; it
performs no operation on any component storage, so after a successful
`kill(e)` every storage's `contains` result and stored component value are
exactly what they were before the kill, until explicitly erased. -/
theorem kill_leaves_storages_untouched {C : Type} (w : RegistryWorld C)
    (e : Entity) (hsucc : (w.kill e).1 = true) :
    ∀ i, ((w.kill e).2.storage.contains i = w.storage.contains i) ∧
      ((w.kill e).2.storage.find i = w.storage.find i) := by
  intro i
  exact ⟨rfl, rfl⟩

/-- C8 witness: killing a live entity whose slot holds a component with
value 5; the storage still reports it afterwards. -/
theorem kill_leaves_storages_untouched_witness :
    ((RegistryWorld.kill
        (⟨⟨[0], ⟨[true]⟩⟩, ⟨[(0, 5)]⟩⟩ : RegistryWorld Nat) ⟨0, 0⟩).2.storage.contains 0
      = (⟨[(0, 5)]⟩ : MapStorage Nat).contains 0) ∧
    ((RegistryWorld.kill
        (⟨⟨[0], ⟨[true]⟩⟩, ⟨[(0, 5)]⟩⟩ : RegistryWorld Nat) ⟨0, 0⟩).2.storage.find 0
      = (⟨[(0, 5)]⟩ : MapStorage Nat).find 0) :=
  kill_leaves_storages_untouched
    (⟨⟨[0], ⟨[true]⟩⟩, ⟨[(0, 5)]⟩⟩ : RegistryWorld Nat) ⟨0, 0⟩ (by decide) 0

/-- C9: once `build()` has succeeded on a Builder, every subsequent `with`
or `build` call on the resulting builder raises `std::logic_error`; no new
state is produced, so the bound entity is not marked alive a second time and
no further component attachment is performed. -/
theorem builder_finalizes_at_most_once {C : Type} (b : Builder)
    (s : Entities) (b2 : Builder) (s2 : Entities) (e : Entity)
    (hbuild : b.build s = .ok (b2, s2, e)) :
    (∀ (st : MapStorage C) (c : C),
      b2.withComp st c = .error .alreadyBuilt) ∧
    (∀ s3 : Entities, b2.build s3 = .error .alreadyBuilt) := by
  have hb2 : b2.built = true := by
    unfold Builder.build at hbuild
    by_cases h : b.built = true
    · rw [if_pos h] at hbuild
      exact Except.noConfusion hbuild
    · rw [if_neg h] at hbuild
      injection hbuild with hok
      have h1 := congrArg (fun p => p.1.built) hok
      exact h1.symm
  constructor
  · intro st c
    unfold Builder.withComp
    rw [if_pos hb2]
  · intro s3
    unfold Builder.build
    rw [if_pos hb2]

/-- C9 witness: a concrete builder built once, then re-used. -/
theorem builder_finalizes_at_most_once_witness :
    Builder.withComp (⟨⟨0, 0⟩, true⟩ : Builder) (⟨[]⟩ : MapStorage Nat) 7 =
      .error .alreadyBuilt :=
  (builder_finalizes_at_most_once (C := Nat) ⟨⟨0, 0⟩, false⟩ ⟨[0], ⟨[]⟩⟩
    ⟨⟨0, 0⟩, true⟩ ⟨[0], ⟨[true]⟩⟩ ⟨0, 0⟩ rfl).1 ⟨[]⟩ 7

/-- C10: for a `MapStorage` index already holding a component, a second
`emplace(i, ...)` does not overwrite: the stored value is preserved
unchanged and `emplace` returns the existing component, discarding the newly
constructed value. -/
theorem emplace_keeps_existing {C : Type} (st : MapStorage C) (i : Nat)
    (v : C) (c : C) (h : st.find i = some v) :
    st.emplace i c = (st, v) := by
  unfold MapStorage.emplace
  rw [h]

/-- C10 witness: slot 0 holds 5; emplacing 9 leaves 5 in place and returns
it. -/
theorem emplace_keeps_existing_witness :
    MapStorage.emplace (⟨[(0, 5)]⟩ : MapStorage Nat) 0 9 =
      ((⟨[(0, 5)]⟩ : MapStorage Nat), 5) :=
  emplace_keeps_existing (⟨[(0, 5)]⟩ : MapStorage Nat) 0 5 9 (by decide)

end Ecstasy
